import Mathlib

/-
Formal model of the formatting core of the fluent-bit Elasticsearch output
plugin (plugins/out_es/es.c): the key/value sanitizer (es_pack_map_content,
es_pack_array_content), the bulk formatting loop (elasticsearch_format), the
logstash index-name composition, the template document-id scanner, the
hash-based document id, and the bulk response validator
(elasticsearch_error_check).

Msgpack objects are modelled by the mutual inductive family MObj / MList /
MMap below.  C byte strings are modelled as List Char; machine allocation
failures (flb_malloc, flb_msgpack_raw_to_json_sds, es_bulk_append live
outside these two source files) are modelled as explicit boolean oracles or
Option-valued collaborator functions where a claim depends on them.
-/

/- Msgpack object as unpacked by the plugin: nil, boolean, integer, string,
binary, array and map variants (MSGPACK_OBJECT_* in the source).  Arrays and
maps are given by the mutually inductive spine types MList and MMap. -/
mutual
inductive MObj : Type
  | mnil : MObj
  | mbool (b : Bool) : MObj
  | mint (n : Int) : MObj
  | mstr (s : List Char) : MObj
  | mbin (s : List Char) : MObj
  | marr (l : MList) : MObj
  | mmap (m : MMap) : MObj
inductive MList : Type
  | nil : MList
  | cons (hd : MObj) (tl : MList) : MList
inductive MMap : Type
  | nil : MMap
  | cons (key val : MObj) (tl : MMap) : MMap
end

/-- Number of entries of a msgpack map (map.via.map.size). -/
def MMap.length : MMap → Nat
  | .nil => 0
  | .cons _ _ t => MMap.length t + 1

/-- Number of elements of a msgpack array (array.via.array.size). -/
def MList.length : MList → Nat
  | .nil => 0
  | .cons _ t => MList.length t + 1

/-- Key of the i-th entry of a msgpack map (map.via.map.ptr[i].key). -/
def MMap.keyAt : MMap → Nat → Option MObj
  | .nil, _ => none
  | .cons k _ _, 0 => some k
  | .cons _ _ t, n + 1 => MMap.keyAt t n

/-- Value of the i-th entry of a msgpack map (map.via.map.ptr[i].val). -/
def MMap.valAt : MMap → Nat → Option MObj
  | .nil, _ => none
  | .cons _ v _, 0 => some v
  | .cons _ _ t, n + 1 => MMap.valAt t n

/-- Bytes of a key object, as extracted in es_pack_map_content lines 95-102:
the byte content for MSGPACK_OBJECT_STR and MSGPACK_OBJECT_BIN keys, and the
NULL pointer with size 0 for every other key type. -/
def keyBytes : MObj → List Char
  | .mstr s => s
  | .mbin s => s
  | _ => []

/-- Dot replacement of es_pack_map_content lines 127-134: every byte equal to
a dot in the copied key is overwritten with an underscore, in place. -/
def replaceDots (s : List Char) : List Char :=
  s.map (fun c => if c = '.' then '_' else c)

/-- Name rewriting applied to a key before it is re-packed: the extracted key
bytes, with dots replaced when replace_dots is enabled. -/
def rewriteName (rd : Bool) (s : List Char) : List Char :=
  if rd then replaceDots s else s

/-- Key transformation of es_pack_map_content lines 91-138: the key bytes are
copied out, optionally dot-rewritten, and re-packed with msgpack_pack_str, so
the emitted key is always a string object. -/
def sanitize_key (rd : Bool) (k : MObj) : MObj :=
  .mstr (rewriteName rd (keyBytes k))

/-- Tests whether a value is neither a map nor an array; such values are
packed verbatim by msgpack_pack_object (es.c lines 162-164 and 192-195). -/
def isLeafVal : MObj → Bool
  | .mmap _ => false
  | .marr _ => false
  | _ => true

/-- Tests whether a key is of string or binary type. -/
def isStrBin : MObj → Bool
  | .mstr _ => true
  | .mbin _ => true
  | _ => false

/- Sanitizer of es.c: es_pack_map_content walks the entries of a map,
re-packing each key through sanitize_key and each value through the dispatch
of lines 150-164 (maps and arrays recurse, everything else is copied
verbatim); es_pack_array_content (lines 173-198) walks array elements with
the same dispatch.  The shared value dispatch is factored as es_pack_value.
Allocation is modelled as succeeding; the C return code is modelled
separately by es_pack_map_ret. -/
mutual
def es_pack_map_content (rd : Bool) : MMap → MMap
  | .nil => .nil
  | .cons k v t =>
      .cons (sanitize_key rd k) (es_pack_value rd v) (es_pack_map_content rd t)
def es_pack_value (rd : Bool) : MObj → MObj
  | .mmap m => .mmap (es_pack_map_content rd m)
  | .marr a => .marr (es_pack_array_content rd a)
  | v => v
def es_pack_array_content (rd : Bool) : MList → MList
  | .nil => .nil
  | .cons e t => .cons (es_pack_value rd e) (es_pack_array_content rd t)
end

/-- Return code of es_pack_map_content: the C function returns -1 exactly
when a key of 255 or more bytes forces a heap copy (line 111) and flb_malloc
fails; allocation success is the oracle allocOk.  The return codes of the
recursive calls on nested maps and arrays are discarded by the source (lines
152 and 160), so only the keys at the top level of the given map can produce
an error. -/
def es_pack_map_ret (allocOk : Bool) : MMap → Int
  | .nil => 0
  | .cons k _ t =>
      if (keyBytes k).length < 255 then es_pack_map_ret allocOk t
      else if allocOk then es_pack_map_ret allocOk t
      else -1

/- Nesting depth of a msgpack object: scalars have depth 0, a map or array
has depth one more than the largest depth among its components. -/
mutual
def MObj.mdepth : MObj → Nat
  | .mmap m => MMap.mdepthEntries m + 1
  | .marr l => MList.mdepthElems l + 1
  | _ => 0
def MList.mdepthElems : MList → Nat
  | .nil => 0
  | .cons e t => max (MObj.mdepth e) (MList.mdepthElems t)
def MMap.mdepthEntries : MMap → Nat
  | .nil => 0
  | .cons k v t => max (max (MObj.mdepth k) (MObj.mdepth v)) (MMap.mdepthEntries t)
end

/-- Family of arbitrarily deeply nested records: deepNest (n+1) is a
one-entry map whose single value is deepNest n. -/
def deepNest : Nat → MObj
  | 0 => .mnil
  | n + 1 => .mmap (MMap.cons (.mstr ['k']) (deepNest n) MMap.nil)

theorem mdepth_deepNest : ∀ n : Nat, MObj.mdepth (deepNest n) = n
  | 0 => rfl
  | n + 1 => by
      simp [deepNest, MObj.mdepth, MMap.mdepthEntries, mdepth_deepNest n]

theorem es_pack_map_len (rd : Bool) :
    ∀ m : MMap, (es_pack_map_content rd m).length = m.length
  | .nil => rfl
  | .cons k v t => by
      simp [es_pack_map_content, MMap.length, es_pack_map_len rd t]

theorem es_pack_arr_len (rd : Bool) :
    ∀ a : MList, (es_pack_array_content rd a).length = a.length
  | .nil => rfl
  | .cons e t => by
      simp [es_pack_array_content, MList.length, es_pack_arr_len rd t]

theorem es_pack_keyAt (rd : Bool) :
    ∀ (m : MMap) (i : Nat),
      (es_pack_map_content rd m).keyAt i = (m.keyAt i).map (sanitize_key rd)
  | .nil, _ => rfl
  | .cons _ _ _, 0 => rfl
  | .cons _ _ t, n + 1 => es_pack_keyAt rd t n

theorem es_pack_valAt (rd : Bool) :
    ∀ (m : MMap) (i : Nat),
      (es_pack_map_content rd m).valAt i = (m.valAt i).map (es_pack_value rd)
  | .nil, _ => rfl
  | .cons _ _ _, 0 => rfl
  | .cons _ _ t, n + 1 => es_pack_valAt rd t n

/-- C6: with dot-replacement enabled, a string or binary key is re-emitted
with name replaceDots of its bytes, and this rewriting preserves the byte
length, leaves no dot byte in the result, and acts pointwise: a dot byte is
replaced by an underscore at the same position and every other byte is
unchanged. -/
theorem C6_dot_replacement (s : List Char) :
    sanitize_key true (.mstr s) = .mstr (replaceDots s)
    ∧ sanitize_key true (.mbin s) = .mstr (replaceDots s)
    ∧ (replaceDots s).length = s.length
    ∧ (∀ c ∈ replaceDots s, c ≠ '.')
    ∧ (∀ i : Nat,
        (replaceDots s).getD i 'a'
          = if s.getD i 'a' = '.' then '_' else s.getD i 'a') := by
  refine ⟨rfl, rfl, by simp [replaceDots], ?_, ?_⟩
  · intro c hc
    simp only [replaceDots, List.mem_map] at hc
    obtain ⟨x, _, he⟩ := hc
    by_cases hx : x = '.'
    · simp [hx] at he
      simp [← he]
    · simp [hx] at he
      simp [← he, hx]
  · intro i
    simp only [replaceDots, List.getD_eq_getElem?_getD, List.getElem?_map]
    cases hx : s[i]? with
    | none => simp
    | some x => by_cases hd : x = '.' <;> simp [hd]

theorem C6_dot_replacement_witness : ('_' : Char) ≠ '.' :=
  (C6_dot_replacement ['a', '.', 'b']).2.2.2.1 '_' (by decide)

/-- C7 counterexample: the claim states that only keys of string or binary
type are rewritten, yet sanitizing the map with the single integer key 42
replaces that key by the empty string (es_pack_map_content lines 95-102 leave
key bytes empty for a non string, non binary key and line 137 re-packs it as
a string). -/
theorem C7_counterexample :
    es_pack_map_content true (MMap.cons (.mint 42) (.mbool true) MMap.nil)
      = MMap.cons (.mstr []) (.mbool true) MMap.nil
    ∧ MObj.mint 42 ≠ MObj.mstr [] :=
  ⟨rfl, fun h => MObj.noConfusion h⟩

/-- C7 (amended): sanitization produces a map with the same key count, pairs
kept in order; keys of string or binary type are re-emitted as string keys
with only the name bytes rewritten, keys of any other type are replaced by
the empty string key; nested maps and sequences are sanitized recursively
preserving order and size, and all other value types are copied verbatim. -/
theorem C7_sanitize_structure (rd : Bool) (m : MMap) :
    (es_pack_map_content rd m).length = m.length
    ∧ (∀ i : Nat,
        (es_pack_map_content rd m).keyAt i = (m.keyAt i).map (sanitize_key rd))
    ∧ (∀ i : Nat,
        (es_pack_map_content rd m).valAt i = (m.valAt i).map (es_pack_value rd))
    ∧ (∀ s : List Char,
        sanitize_key rd (.mstr s) = .mstr (rewriteName rd s)
        ∧ sanitize_key rd (.mbin s) = .mstr (rewriteName rd s))
    ∧ (∀ k : MObj, isStrBin k = false → sanitize_key rd k = .mstr (rewriteName rd []))
    ∧ (∀ v : MObj, isLeafVal v = true → es_pack_value rd v = v)
    ∧ (∀ mm : MMap,
        es_pack_value rd (.mmap mm) = .mmap (es_pack_map_content rd mm)
        ∧ (es_pack_map_content rd mm).length = mm.length)
    ∧ (∀ a : MList,
        es_pack_value rd (.marr a) = .marr (es_pack_array_content rd a)
        ∧ (es_pack_array_content rd a).length = a.length) := by
  refine ⟨es_pack_map_len rd m, es_pack_keyAt rd m, es_pack_valAt rd m,
          fun s => ⟨rfl, rfl⟩, ?_, ?_,
          fun mm => ⟨rfl, es_pack_map_len rd mm⟩,
          fun a => ⟨rfl, es_pack_arr_len rd a⟩⟩
  · intro k hk
    cases k <;> simp_all [isStrBin, sanitize_key, keyBytes]
  · intro v hv
    cases v <;> simp_all [isLeafVal, es_pack_value]

theorem C7_sanitize_structure_witness :
    sanitize_key true (.mint 42) = .mstr (rewriteName true [])
    ∧ es_pack_value true (.mbool false) = .mbool false :=
  ⟨(C7_sanitize_structure true MMap.nil).2.2.2.2.1 (.mint 42) rfl,
   (C7_sanitize_structure true MMap.nil).2.2.2.2.2.1 (.mbool false) rfl⟩

/-- C9: the sanitizer has no depth bound at all.  For every candidate bound d
there is an input of depth greater than d (deepNest (d+1)) on which
es_pack_map_content still returns success (its return code, modelled by
es_pack_map_ret, is 0 for every allocation oracle, since -1 is only ever
produced by an allocation failure on a long key).  The C code recurses once
per nesting level with no check, so no MalformedInput error exists past any
bound; pathological depth can only exhaust the call stack. -/
theorem C9_no_depth_bound (d : Nat) (allocOk : Bool) :
    d < MObj.mdepth (deepNest (d + 1))
    ∧ es_pack_map_ret allocOk (MMap.cons (.mstr ['k']) (deepNest d) MMap.nil) = 0 := by
  constructor
  · rw [mdepth_deepNest]
    omega
  · simp [es_pack_map_ret, keyBytes]

/-- Literal key looked up by elasticsearch_error_check line 667: the 6 bytes
of the word errors. -/
def errorsLit : List Char := ['e', 'r', 'r', 'o', 'r', 's']

/-- Literal substring of the textual fallback at elasticsearch_error_check
line 628. -/
def errorsFalseLit : List Char := "\"errors\":false,\"items\":[".toList

/-- Tests whether the first argument occurs at the front of the second. -/
def matchesFront : List Char → List Char → Bool
  | [], _ => true
  | p :: ps, hay =>
    match hay with
    | [] => false
    | q :: qs => p == q && matchesFront ps qs

/-- Substring search modelling strstr: scans every suffix of the haystack for
an occurrence of the pattern at its front. -/
def containsSub (pat : List Char) : List Char → Bool
  | [] => matchesFront pat []
  | c :: t => matchesFront pat (c :: t) || containsSub pat t

/-- Scan of the top-level entries of the parsed response map, from
elasticsearch_error_check lines 654-688: a non-string key aborts with
error-present; keys whose size differs from 6 are skipped; the first key
equal to errors decides the result (its boolean value, or error-present if
the value is not a boolean); when no key decides, the initial value
FLB_TRUE (error-present) stands. -/
def errors_scan : MMap → Bool
  | .nil => true
  | .cons k v t =>
    match k with
    | .mstr s =>
        if s.length ≠ 6 then errors_scan t
        else if s = errorsLit then
          match v with
          | .mbool b => b
          | _ => true
        else errors_scan t
    | _ => true

/-- Response validator elasticsearch_error_check (es.c lines 598-694).  The
parsed argument models the result of flb_pack_json followed by
msgpack_unpack_next (both live outside the plugin sources): none when the
payload does not parse as JSON, some root otherwise.  On parse failure: an
empty payload (payload_size <= 0, line 623) is error-present; a payload
containing the literal errors-false-items fragment (line 628) is no-error;
any other unparseable payload is error-present.  On parse success a
non-mapping root is error-present, and a mapping root is decided by
errors_scan. -/
def elasticsearch_error_check (payload : List Char) (parsed : Option MObj) : Bool :=
  match parsed with
  | none =>
      if payload.length = 0 then true
      else if containsSub errorsFalseLit payload then false
      else true
  | some root =>
      match root with
      | .mmap m => errors_scan m
      | _ => true

/-- Lookup written from the words of the claim: the value of the first
top-level entry whose key is the 6-byte string errors. -/
def lookup_errors : MMap → Option MObj
  | .nil => none
  | .cons k v t =>
    match k with
    | .mstr s => if s = errorsLit then some v else lookup_errors t
    | _ => lookup_errors t

/-- Verdict written from the words of the claim: the boolean value of the
top-level errors key, error-present when the key is absent or its value is
not a boolean. -/
def claim_errors_value (m : MMap) : Bool :=
  match lookup_errors m with
  | some (.mbool b) => b
  | some _ => true
  | none => true

/-- Tests whether every key of a map is a string object; maps produced by
parsing JSON always satisfy this. -/
def all_str_keys : MMap → Bool
  | .nil => true
  | .cons (.mstr _) _ t => all_str_keys t
  | _ => false

theorem errors_scan_spec :
    ∀ m : MMap, all_str_keys m = true → errors_scan m = claim_errors_value m
  | .nil, _ => rfl
  | .cons k v t, h => by
      cases k with
      | mnil => simp [all_str_keys] at h
      | mbool b => simp [all_str_keys] at h
      | mint n => simp [all_str_keys] at h
      | mbin s => simp [all_str_keys] at h
      | marr l => simp [all_str_keys] at h
      | mmap mm => simp [all_str_keys] at h
      | mstr s =>
          have ht := errors_scan_spec t (by simpa [all_str_keys] using h)
          by_cases h6 : s.length = 6
          · by_cases he : s = errorsLit
            · subst he
              cases v <;>
                simp [errors_scan, claim_errors_value, lookup_errors, errorsLit]
            · simp [errors_scan, claim_errors_value, lookup_errors, h6, he, ht]
          · have hne : s ≠ errorsLit := fun hh => h6 (by rw [hh]; rfl)
            simp [errors_scan, claim_errors_value, lookup_errors, h6, hne, ht]

/-- C1: the response validator returns error-present on an empty unparseable
payload; returns no-error on an unparseable payload containing the literal
errors-false-items fragment and error-present on any other unparseable
payload; and on a payload that parses to a mapping root (JSON roots have
string keys) it returns exactly the verdict of the claim-side lookup of the
6-byte errors key, defaulting to error-present when the root is not a
mapping. -/
theorem C1_response_validator (payload : List Char) (parsed : Option MObj) :
    (parsed = none → payload.length = 0 →
        elasticsearch_error_check payload parsed = true)
    ∧ (parsed = none → payload.length ≠ 0 →
        containsSub errorsFalseLit payload = true →
        elasticsearch_error_check payload parsed = false)
    ∧ (parsed = none → payload.length ≠ 0 →
        containsSub errorsFalseLit payload = false →
        elasticsearch_error_check payload parsed = true)
    ∧ (∀ m : MMap, parsed = some (.mmap m) → all_str_keys m = true →
        elasticsearch_error_check payload parsed = claim_errors_value m)
    ∧ (∀ root : MObj, parsed = some root → (∀ m : MMap, root ≠ .mmap m) →
        elasticsearch_error_check payload parsed = true) := by
  refine ⟨?_, ?_, ?_, ?_, ?_⟩
  · intro hp h0
    subst hp
    simp [elasticsearch_error_check, h0]
  · intro hp h0 hc
    subst hp
    simp [elasticsearch_error_check, h0, hc]
  · intro hp h0 hc
    subst hp
    simp [elasticsearch_error_check, h0, hc]
  · intro m hp hk
    subst hp
    simpa [elasticsearch_error_check] using errors_scan_spec m hk
  · intro root hp hnm
    subst hp
    cases root with
    | mmap m => exact absurd rfl (hnm m)
    | mnil => rfl
    | mbool b => rfl
    | mint n => rfl
    | mstr s => rfl
    | mbin s => rfl
    | marr l => rfl

/-- Concrete success response map: errors maps to false. -/
def m_errors_false : MMap := MMap.cons (.mstr errorsLit) (.mbool false) MMap.nil

theorem C1_response_validator_witness :
    elasticsearch_error_check [] (some (.mmap m_errors_false)) = false :=
  ((C1_response_validator [] (some (.mmap m_errors_false))).2.2.2.1
      m_errors_false rfl (by decide)).trans (by decide)

/-- Well-formed record test of the batch loop (es.c lines 381-389): each
top-level object of the decoded stream must be an array of exactly two
entries (time and record); anything else is skipped with continue. -/
def recordOk : MObj → Bool
  | .marr l => l.length == 2
  | _ => false

/-- Second entry of a two-entry record array (root.via.array.ptr[1], es.c
line 396), the record map. -/
def recordMap : MObj → MObj
  | .marr (.cons _ (.cons m .nil)) => m
  | _ => .mnil

/-- Per-record processing of the batch loop (es.c lines 418-549) with its
fallible collaborators abstracted: san models the document build ending in
es_pack_map_content (line 503, fails only on allocation failure inside the
sanitizer), ser models flb_msgpack_raw_to_json_sds (line 532, fails on
allocation failure; this function lives outside the plugin sources), act
models the total snprintf composition of the action line j_index, and appOk
models success of es_bulk_append (line 540, es_bulk.c is outside the plugin
sources).  A failure of any stage yields none. -/
def format_record (san : MObj → Option MObj) (ser : MObj → Option (List Char))
    (act : MObj → List Char) (appOk : List Char → List Char → Bool)
    (r : MObj) : Option (List Char × List Char) :=
  match san (recordMap r) with
  | none => none
  | some doc =>
    match ser doc with
    | none => none
    | some line => if appOk (act doc) line then some (act doc, line) else none

/-- Batch loop of elasticsearch_format (es.c lines 380-550): records that are
not arrays of exactly two entries are skipped; a processing failure at any
record returns -1 immediately, destroying the bulk buffer, so nothing is
handed back; otherwise each well-formed record appends its action-line and
document-line pair in order. -/
def format_loop (san : MObj → Option MObj) (ser : MObj → Option (List Char))
    (act : MObj → List Char) (appOk : List Char → List Char → Bool) :
    List MObj → Option (List (List Char × List Char))
  | [] => some []
  | r :: rs =>
    if recordOk r then
      match format_record san ser act appOk r with
      | none => none
      | some pr =>
        match format_loop san ser act appOk rs with
        | none => none
        | some out => some (pr :: out)
    else format_loop san ser act appOk rs

/-- Shape validation and loop of elasticsearch_format (es.c lines 241-568).
The input models the decoded msgpack stream as the list of its top-level
objects.  An empty stream (first unpack fails), a first object that is not
an array, or a first object that is an empty array make the whole call fail
with -1 (lines 245-264); otherwise the loop runs over the whole stream and
the accumulated pair list (the bulk buffer) is handed to the caller. -/
def elasticsearch_format (san : MObj → Option MObj) (ser : MObj → Option (List Char))
    (act : MObj → List Char) (appOk : List Char → List Char → Bool)
    (stream : List MObj) : Option (List (List Char × List Char)) :=
  match stream with
  | [] => none
  | r :: _ =>
    match r with
    | .marr MList.nil => none
    | .marr _ => format_loop san ser act appOk stream
    | _ => none

/-- Sequencing written from the words of the claim: every record of the list
must be processed successfully, each contributing exactly one pair in order,
or the whole computation fails. -/
def seqRecords (f : MObj → Option (List Char × List Char)) :
    List MObj → Option (List (List Char × List Char))
  | [] => some []
  | a :: l =>
    match f a with
    | none => none
    | some b =>
      match seqRecords f l with
      | none => none
      | some out => some (b :: out)

theorem format_loop_eq (san : MObj → Option MObj) (ser : MObj → Option (List Char))
    (act : MObj → List Char) (appOk : List Char → List Char → Bool) :
    ∀ rs : List MObj,
      format_loop san ser act appOk rs
        = seqRecords (format_record san ser act appOk)
            (rs.filter (fun r => recordOk r))
  | [] => by simp [format_loop, seqRecords]
  | r :: rs => by
      by_cases hr : recordOk r
      · simp only [format_loop, hr, if_true, List.filter_cons, seqRecords]
        cases hfr : format_record san ser act appOk r with
        | none => simp [seqRecords, hfr]
        | some pr =>
            simp [seqRecords, hfr, format_loop_eq san ser act appOk rs]
      · simp [format_loop, hr, List.filter_cons,
              format_loop_eq san ser act appOk rs]

theorem format_loop_none (san : MObj → Option MObj) (ser : MObj → Option (List Char))
    (act : MObj → List Char) (appOk : List Char → List Char → Bool) :
    ∀ rs : List MObj,
      (∃ r ∈ rs, recordOk r = true ∧ format_record san ser act appOk r = none) →
      format_loop san ser act appOk rs = none
  | r :: rs, hex => by
      obtain ⟨r0, hmem, hok, hnone⟩ := hex
      rcases List.mem_cons.mp hmem with h0 | h0
      · subst h0
        simp [format_loop, hok, hnone]
      · by_cases hr : recordOk r
        · simp only [format_loop, hr, if_true]
          cases format_record san ser act appOk r with
          | none => rfl
          | some pr =>
              rw [format_loop_none san ser act appOk rs ⟨r0, h0, hok, hnone⟩]
        · simpa [format_loop, hr] using
            format_loop_none san ser act appOk rs ⟨r0, h0, hok, hnone⟩

theorem seqRecords_some_length (f : MObj → Option (List Char × List Char)) :
    ∀ (l : List MObj) (out : List (List Char × List Char)),
      seqRecords f l = some out → out.length = l.length
  | [], out => by
      intro h
      simp only [seqRecords, Option.some_inj] at h
      simp [← h]
  | a :: l, out => by
      intro h
      simp only [seqRecords] at h
      cases ha : f a with
      | none => simp [ha] at h
      | some b =>
          simp only [ha] at h
          cases hl : seqRecords f l with
          | none => simp [hl] at h
          | some out2 =>
              simp only [hl, Option.some_inj] at h
              simp [← h, List.length_cons, seqRecords_some_length f l out2 hl]

/-- C2: the batch formatter aborts with no buffer whenever any well-formed
record fails at any stage (sanitization, serialization to JSON, append), and
on success the returned buffer holds exactly one action-line and
document-line pair per well-formed record, in order; the last conjunct
enumerates the three failure sources of a record. -/
theorem C2_batch_abort_or_complete (san : MObj → Option MObj)
    (ser : MObj → Option (List Char)) (act : MObj → List Char)
    (appOk : List Char → List Char → Bool) (stream : List MObj) :
    ((∃ r ∈ stream, recordOk r = true ∧ format_record san ser act appOk r = none) →
        elasticsearch_format san ser act appOk stream = none)
    ∧ (∀ out, elasticsearch_format san ser act appOk stream = some out →
        seqRecords (format_record san ser act appOk)
            (stream.filter (fun r => recordOk r)) = some out
        ∧ out.length = (stream.filter (fun r => recordOk r)).length)
    ∧ (∀ r : MObj, format_record san ser act appOk r = none ↔
        (san (recordMap r) = none
         ∨ ∃ doc, san (recordMap r) = some doc ∧
             (ser doc = none
              ∨ ∃ line, ser doc = some line ∧ appOk (act doc) line = false))) := by
  refine ⟨?_, ?_, ?_⟩
  · intro hex
    cases stream with
    | nil => rfl
    | cons r rest =>
        cases r with
        | marr l =>
            cases l with
            | nil => rfl
            | cons x l0 =>
                exact format_loop_none san ser act appOk _ hex
        | mnil => rfl
        | mbool b => rfl
        | mint n => rfl
        | mstr s => rfl
        | mbin s => rfl
        | mmap m => rfl
  · intro out hout
    have hfl : format_loop san ser act appOk stream = some out := by
      cases stream with
      | nil => exact absurd hout (by simp [elasticsearch_format])
      | cons r rest =>
          cases r with
          | marr l =>
              cases l with
              | nil => exact absurd hout (by simp [elasticsearch_format])
              | cons x l0 => exact hout
          | mnil => exact absurd hout (by simp [elasticsearch_format])
          | mbool b => exact absurd hout (by simp [elasticsearch_format])
          | mint n => exact absurd hout (by simp [elasticsearch_format])
          | mstr s => exact absurd hout (by simp [elasticsearch_format])
          | mbin s => exact absurd hout (by simp [elasticsearch_format])
          | mmap m => exact absurd hout (by simp [elasticsearch_format])
    rw [format_loop_eq] at hfl
    exact ⟨hfl, seqRecords_some_length _ _ _ hfl⟩
  · intro r
    constructor
    · intro h
      cases hs : san (recordMap r) with
      | none => exact Or.inl rfl
      | some doc =>
          refine Or.inr ⟨doc, rfl, ?_⟩
          cases hj : ser doc with
          | none => exact Or.inl rfl
          | some line =>
              refine Or.inr ⟨line, rfl, ?_⟩
              by_cases ha : appOk (act doc) line = true
              · simp [format_record, hs, hj, ha] at h
              · simpa using ha
    · intro h
      rcases h with h | ⟨doc, hdoc, h⟩
      · simp [format_record, h]
      · rcases h with h | ⟨line, hline, h⟩
        · simp [format_record, hdoc, h]
        · simp [format_record, hdoc, hline, h]

/-- Concrete well-formed record: an array of two entries. -/
def rec_ok0 : MObj := .marr (.cons .mnil (.cons (.mmap MMap.nil) MList.nil))

theorem C2_batch_abort_witness :
    elasticsearch_format (fun _ => none) (fun _ => some []) (fun _ => [])
      (fun _ _ => true) [rec_ok0] = none :=
  (C2_batch_abort_or_complete (fun _ => none) (fun _ => some []) (fun _ => [])
      (fun _ _ => true) [rec_ok0]).1
    ⟨rec_ok0, by simp, by decide, rfl⟩

theorem format_loop_all_skip (san : MObj → Option MObj)
    (ser : MObj → Option (List Char)) (act : MObj → List Char)
    (appOk : List Char → List Char → Bool) :
    ∀ rs : List MObj, (∀ r ∈ rs, recordOk r = false) →
      format_loop san ser act appOk rs = some []
  | [], _ => rfl
  | r :: rs, h => by
      have hr : recordOk r = false := h r (List.mem_cons_self r rs)
      simp only [format_loop, hr, Bool.false_eq_true, if_false]
      exact format_loop_all_skip san ser act appOk rs
        (fun x hx => h x (List.mem_cons_of_mem r hx))

/-- C10: a stream whose first object is a non-empty array (so shape
validation passes) but all of whose objects are malformed records (not
arrays of exactly two entries) is skipped in full, and the formatter still
returns success, handing back the empty (zero-length) bulk buffer. -/
theorem C10_all_malformed_success (san : MObj → Option MObj)
    (ser : MObj → Option (List Char)) (act : MObj → List Char)
    (appOk : List Char → List Char → Bool)
    (x : MObj) (l0 : MList) (rest : List MObj)
    (hmal : ∀ r ∈ (MObj.marr (MList.cons x l0) :: rest), recordOk r = false) :
    elasticsearch_format san ser act appOk (.marr (.cons x l0) :: rest)
      = some [] := by
  simpa [elasticsearch_format] using
    format_loop_all_skip san ser act appOk (.marr (.cons x l0) :: rest) hmal

theorem C10_all_malformed_witness :
    elasticsearch_format (fun _ => none) (fun _ => none) (fun _ => [])
      (fun _ _ => false) [.marr (.cons .mnil MList.nil), .mint 5] = some [] :=
  C10_all_malformed_success (fun _ => none) (fun _ => none) (fun _ => [])
    (fun _ _ => false) .mnil MList.nil [.mint 5] (by decide)

/-- ASCII lowercasing of one byte, as strncasecmp folds case. -/
def lowerCh (c : Char) : Char :=
  if 'A' ≤ c ∧ c ≤ 'Z' then Char.ofNat (c.toNat + 32) else c

/-- Field-match test of the template id scanner, es.c line 340: the source
calls strncasecmp(record key pointer, placeholder, record key size), so only
the first size bytes of the placeholder are compared, where size is the
length of the RECORD key; the NUL terminator of the placeholder buffer stops
the comparison when the record key is longer.  Hence a record key matches
exactly when it is a case-insensitive front segment of the placeholder. -/
def id_format_key_match (recKey ph : List Char) : Bool :=
  decide (recKey.length ≤ ph.length)
    && (recKey.map lowerCh == (ph.take recKey.length).map lowerCh)

/-- C3 evidence: evaluating the match test of the template id scanner shows a
record field named ms is accepted for the placeholder msg although the two
names do not match case-insensitively; the scanner therefore does not
implement the claimed first exact case-insensitive match. -/
theorem C3_template_match_not_exact :
    id_format_key_match ['m', 's'] ['m', 's', 'g'] = true
    ∧ (['m', 's'] : List Char) ≠ ['m', 's', 'g']
    ∧ (['m', 's'].map lowerCh : List Char) ≠ ['m', 's', 'g'].map lowerCh := by
  decide

/-- Index names of the action lines emitted for a batch when
current_time_index is enabled and logstash_format is disabled (id_format
unset), a slice of elasticsearch_format.  strf models strftime applied to
the configured index pattern; clock models successive flb_time_get readings
(the n-th call of the flush returns clock n).  With generate_id disabled the
action line j_index is composed once before the loop from the first reading
(lines 290-308) and reused verbatim for every record, and the loop takes a
second reading into tms (lines 375-377); with generate_id enabled the only
reading is the pre-loop one of line 376, and the per-record strftime of
lines 481-486 re-formats the pattern against that same fixed tms for every
record before the action line is rebuilt at lines 511-529. -/
def es_current_time_indices (strf : List Char → Nat → List Char)
    (pat : List Char) (genId : Bool) (clock : Nat → Nat)
    (stream : List MObj) : List (List Char) :=
  let preIndex := strf pat (clock 0)
  let tms := if genId then clock 0 else clock 1
  (stream.filter (fun r => recordOk r)).map
    (fun _ => if genId then strf pat tms else preIndex)

/-- Index names written from the words of the claim: the configured pattern
formatted against the current wall-clock time, recomputed per record, so the
i-th well-formed record reads a fresh clock value. -/
def claim_current_time_indices (strf : List Char → Nat → List Char)
    (pat : List Char) (clock : Nat → Nat) (stream : List MObj) :
    List (List Char) :=
  (List.range (stream.filter (fun r => recordOk r)).length).map
    (fun i => strf pat (clock i))

/-- Concrete strftime model used in the counterexample: the pattern followed
by the decimal rendering of the time value. -/
def strfModel (pat : List Char) (t : Nat) : List Char :=
  pat ++ Nat.toDigits 10 t

/-- C4 counterexample: on a batch of two well-formed records with a clock
that advances between readings, the code gives both records the index name
formatted from the single pre-loop reading, while the claim (a fresh reading
per record) would give the records different names. -/
theorem C4_counterexample :
    es_current_time_indices strfModel ['i'] false (fun n => n) [rec_ok0, rec_ok0]
      ≠ claim_current_time_indices strfModel ['i'] (fun n => n)
          [rec_ok0, rec_ok0] := by
  decide

/-- C4 (amended): with current_time_index enabled and logstash disabled, the
wall clock is sampled once per batch flush; every action line of the batch
carries the configured pattern formatted against the first reading, so all
records of the batch share one index name. -/
theorem C4_single_sample (strf : List Char → Nat → List Char)
    (pat : List Char) (genId : Bool) (clock : Nat → Nat)
    (stream : List MObj) :
    ∀ s ∈ es_current_time_indices strf pat genId clock stream,
      s = strf pat (clock 0) := by
  intro s hs
  simp only [es_current_time_indices, List.mem_map] at hs
  obtain ⟨r, _, he⟩ := hs
  cases genId <;> simpa using he.symm

theorem C4_single_sample_witness :
    (['i', '0'] : List Char) = strfModel ['i'] 0 :=
  C4_single_sample strfModel ['i'] false (fun n => n) [rec_ok0] ['i', '0']
    (by decide)

/-- NUL byte. -/
def NULC : Char := Char.ofNat 0

/-- Byte write at an offset, modelling memcpy and in-place stores into the
256-byte logstash_index stack buffer: the bytes of src overwrite the buffer
content starting at position off.  All writes performed by the modelled code
land at offsets no greater than the current written extent, so no padding
case arises on the inputs considered. -/
def bufWrite (buf : List Char) (off : Nat) (src : List Char) : List Char :=
  buf.take off ++ src ++ buf.drop (off + src.length)

/-- One record iteration of the logstash index composition.  Lines 399-416:
when the prefix-key lookup (flb_ra_translate, external to the plugin
sources; modelled as an optional byte string) succeeds, its value truncated
to 128 bytes is copied over the START of the persistent buffer and its
length is recorded in es_index_custom_len, otherwise that length stays 0.
Lines 451-465: a dash is written right after the prefix region (the custom
length if positive, the static prefix length otherwise), the date suffix
(strftime of logstash_dateformat, modelled as the given byte string) and a
NUL follow; the emitted index name es_index is the buffer content up to the
first NUL.  The function returns the updated buffer and the emitted name. -/
def logstash_step (pfxLen : Nat) (buf : List Char)
    (lkup : Option (List Char)) (date : List Char) : List Char × List Char :=
  let st :=
    match lkup with
    | some v => (bufWrite buf 0 (v.take 128), (v.take 128).length)
    | none => (buf, 0)
  let plen := if st.2 > 0 then st.2 else pfxLen
  let buf2 := bufWrite st.1 plen ['-']
  let buf3 := bufWrite buf2 (plen + 1) date
  let buf4 := bufWrite buf3 (plen + 1 + date.length) [NULC]
  (buf4, buf4.takeWhile (fun c => c != NULC))

/-- Loop over the records of a batch, threading the persistent logstash_index
buffer; each record is given by its lookup outcome and formatted date. -/
def logstash_go (pfxLen : Nat) :
    List Char → List (Option (List Char) × List Char) → List (List Char)
  | _, [] => []
  | buf, (lk, date) :: rest =>
      let st := logstash_step pfxLen buf lk date
      st.2 :: logstash_go pfxLen st.1 rest

/-- Per-batch logstash index resolution (es.c lines 277-281 initialise the
buffer with the static prefix and a NUL; the loop then composes one index
name per record). -/
def logstash_run (pfx : List Char)
    (recs : List (Option (List Char) × List Char)) : List (List Char) :=
  logstash_go pfx.length (pfx ++ [NULC]) recs

/-- C5 evidence: with static prefix app and default-format date 2024.01.02,
a single record whose lookup fails resolves to app-2024.01.02 exactly as the
claim states; but in a batch whose first record has a successful lookup of
zzzzzz and whose second record has a failed lookup, the second record is
composed from the stale buffer left by the first one and resolves to
zzz-2024.01.02, not to the static prefix app as the claim (and the config
map documentation of logstash_prefix_key, es.c lines 927-933) requires. -/
theorem C5_stale_fallback :
    logstash_run "app".toList [(none, "2024.01.02".toList)]
        = ["app-2024.01.02".toList]
    ∧ logstash_run "app".toList
        [(some "zzzzzz".toList, "2024.01.02".toList),
         (none, "2024.01.02".toList)]
        = ["zzzzzz-2024.01.02".toList, "zzz-2024.01.02".toList]
    ∧ "zzz-2024.01.02".toList ≠ "app-2024.01.02".toList := by
  decide

/-- Modelled from the spec: MurmurHash3_x64_128 (murmur3.c is not among the
sources).  Per the spec it is a deterministic non-cryptographic 128-bit hash
with a deterministic seed; it is modelled as a deterministic polynomial fold
of the document bytes and the seed, split into the eight 16-bit words the C
call site reads back (uint16_t hash[8]). -/
def MurmurHash3_x64_128 (data : List Char) (seed : Nat) (i : Fin 8) : Nat :=
  (data.foldl (fun a c => a * 131 + c.toNat + seed) (i.val + 1)) % 65536

/-- Hexadecimal digit characters produced by the %x printf conversion. -/
def hexDigits : List Char := "0123456789abcdef".toList

/-- Digit-to-character table lookup. -/
def hexDigit (n : Nat) : Char := hexDigits.getD n '0'

/-- Tests whether a character is a lowercase hexadecimal digit. -/
def isHexCh (c : Char) : Bool := hexDigits.contains c

/-- Four-digit zero-padded lowercase hexadecimal rendering of a 16-bit word,
modelling the %04x conversions of es.c line 514. -/
def hex4 (n : Nat) : List Char :=
  [hexDigit (n / 4096 % 16), hexDigit (n / 256 % 16),
   hexDigit (n / 16 % 16), hexDigit (n % 16)]

/-- Document id of hash mode (es.c lines 511-516): the sanitized serialized
document bytes are hashed with seed 42 and the eight 16-bit hash words are
rendered through the snprintf format %04x%04x-%04x-%04x-%04x-%04x%04x%04x
into the 37-byte es_uuid buffer, which the format fills with exactly 36
characters. -/
def es_uuid (doc : List Char) : List Char :=
  hex4 (MurmurHash3_x64_128 doc 42 0) ++ hex4 (MurmurHash3_x64_128 doc 42 1)
    ++ '-' :: hex4 (MurmurHash3_x64_128 doc 42 2)
    ++ '-' :: hex4 (MurmurHash3_x64_128 doc 42 3)
    ++ '-' :: hex4 (MurmurHash3_x64_128 doc 42 4)
    ++ '-' :: (hex4 (MurmurHash3_x64_128 doc 42 5)
        ++ hex4 (MurmurHash3_x64_128 doc 42 6)
        ++ hex4 (MurmurHash3_x64_128 doc 42 7))

theorem hexDigit_isHex (n : Nat) (h : n < 16) : isHexCh (hexDigit n) = true := by
  interval_cases n <;> decide

theorem hex4_hex (n : Nat) : ∀ c ∈ hex4 n, isHexCh c = true := by
  intro c hc
  simp only [hex4, List.mem_cons, List.not_mem_nil, or_false] at hc
  rcases hc with rfl | rfl | rfl | rfl <;>
    exact hexDigit_isHex _ (Nat.mod_lt _ (by norm_num))

/-- C8: the hash-mode document id is a deterministic function of the
sanitized serialized document bytes, rendered as a 36-character UUID-shaped
string: four dash-separated groups frame eight 4-digit lowercase hexadecimal
words, and byte-identical documents always receive identical id strings. -/
theorem C8_hash_id (doc : List Char) :
    (es_uuid doc).length = 36
    ∧ (∃ a b c d e f g h : List Char,
        es_uuid doc
          = a ++ b ++ '-' :: c ++ '-' :: d ++ '-' :: e ++ '-' :: (f ++ g ++ h)
        ∧ a.length = 4 ∧ b.length = 4 ∧ c.length = 4 ∧ d.length = 4
        ∧ e.length = 4 ∧ f.length = 4 ∧ g.length = 4 ∧ h.length = 4
        ∧ (∀ x ∈ a ++ b ++ c ++ d ++ e ++ f ++ g ++ h, isHexCh x = true))
    ∧ (∀ doc2 : List Char, doc = doc2 → es_uuid doc = es_uuid doc2) := by
  refine ⟨by simp [es_uuid, hex4], ?_, fun doc2 h => by rw [h]⟩
  refine ⟨hex4 (MurmurHash3_x64_128 doc 42 0), hex4 (MurmurHash3_x64_128 doc 42 1),
          hex4 (MurmurHash3_x64_128 doc 42 2), hex4 (MurmurHash3_x64_128 doc 42 3),
          hex4 (MurmurHash3_x64_128 doc 42 4), hex4 (MurmurHash3_x64_128 doc 42 5),
          hex4 (MurmurHash3_x64_128 doc 42 6), hex4 (MurmurHash3_x64_128 doc 42 7),
          rfl, rfl, rfl, rfl, rfl, rfl, rfl, rfl, rfl, ?_⟩
  intro x hx
  simp only [List.mem_append] at hx
  rcases hx with ((((((hx | hx) | hx) | hx) | hx) | hx) | hx) | hx <;>
    exact hex4_hex _ x hx

theorem C8_hash_id_witness : es_uuid ['a'] = es_uuid ['a'] :=
  (C8_hash_id ['a']).2.2 ['a'] rfl
